/-
Verification of the PyTextSummer map-reduce summarization core.

This file shallowly embeds the pure/algorithmic parts of the repository:
  * `AdvancedPDFProcessor.create_chunks` (src/advanced_processor.py) as a
    fuel-bounded evaluation of the sliding-window while loop,
  * the code-fence cleanup `_clean_latex` / `_clean_content`
    (src/advanced_processor.py, src/smart_summarizer.py),
  * the key rotation and retry machinery of `LangChainSummarizer`
    (src/langchain_summarizer.py): `_rotate_api_key`,
    `_mark_key_rate_limited`, `_call_llm_with_retry`, `_refine_summarize`,
    `compile_latex_to_pdf`,
  * `OutputValidator._calculate_coverage` (src/smart_summarizer.py).
The external LLM and the LaTeX compiler are modelled as oracles indexed by
invocation / attempt number (the spec treats both as opaque collaborators).
Wall-clock time is an explicit counter advanced by the modelled sleeps.
-/
import Mathlib

namespace PyTextSummer

/-! ## Character and string utilities (Python `str.strip`, `str.lower`,
substring membership, whitespace splitting) -/

/-- Python whitespace characters for `str.strip` / `\s` (ASCII subset;
the repository only ever strips ASCII whitespace around LLM output). -/
def isWs (c : Char) : Bool :=
  c = ' ' || c = '\t' || c = '\n' || c = '\r' || c = '\x0b' || c = '\x0c'

/-- Strip leading whitespace (left part of Python `str.strip`). -/
def stripL (l : List Char) : List Char := l.dropWhile isWs

/-- Strip trailing whitespace (right part of Python `str.strip`). -/
def stripR (l : List Char) : List Char := (l.reverse.dropWhile isWs).reverse

/-- Python `str.strip()` on a character list. -/
def stripWs (l : List Char) : List Char := stripR (stripL l)

/-- Python `str.strip()` on a string. -/
def pyStrip (s : String) : String := ⟨stripWs s.data⟩

/-- Python `str.lower()` (ASCII-adequate for the classification strings used). -/
def strLower (s : String) : String := ⟨s.data.map Char.toLower⟩

/-- Contiguous-sublist (substring) test on lists. -/
def containsSub (pat : List Char) : List Char → Bool
  | [] => pat.isEmpty
  | c :: rest => pat.isPrefixOf (c :: rest) || containsSub pat rest

/-- Python `needle in hay` (contiguous substring test). -/
def strContains (hay needle : String) : Bool :=
  containsSub needle.data hay.data

/-- Last `n` characters of a string: Python `s[-n:]` for `n > 0`. -/
def strTakeRight (s : String) (n : Nat) : String :=
  ⟨(s.data.reverse.take n).reverse⟩

/-- Helper for Python `str.split()` (split on whitespace runs, dropping
empty fields): accumulates the current word reversed. -/
def splitWsAux : List Char → List Char → List (List Char)
  | [], cur => if cur.isEmpty then [] else [cur.reverse]
  | c :: rest, cur =>
    if isWs c then
      if cur.isEmpty then splitWsAux rest [] else cur.reverse :: splitWsAux rest []
    else splitWsAux rest (c :: cur)

/-- Python `str.split()` with no argument. -/
def splitWs (s : String) : List String :=
  (splitWsAux s.data []).map fun w => ⟨w⟩

/-! ## Code-fence cleanup (`_clean_latex` in src/advanced_processor.py and the
identical `_clean_content` in src/smart_summarizer.py)

The Python code applies, to the stripped text, the regex patterns
 ```latex\s*(.*?)\s*```  ,  ```tex\s*(.*?)\s*```  ,  ```\s*(.*?)\s*```
in order (re.DOTALL | re.IGNORECASE), replacing the text by
`match.group(1).strip()` for the first pattern that matches.  A `re.search`
match of such a pattern starts at the leftmost position carrying the opener
(case-insensitively) that is followed by a closing ``` ; the lazy group then
extends to the first subsequent ``` occurrence.  Because `group(1).strip()`
is taken, the greedy/lazy whitespace borders collapse into one strip, so the
extracted text is `strip` of the characters strictly between the opener and
the first following triple-backtick. -/

/-- Does the character list begin with a triple backtick? -/
def startsTriple (l : List Char) : Bool :=
  match l with
  | a :: b :: c :: _ => a == '`' && b == '`' && c == '`'
  | _ => false

/-- Does the list contain a triple backtick anywhere? -/
def hasTriple : List Char → Bool
  | [] => false
  | c :: rest => startsTriple (c :: rest) || hasTriple rest

/-- Content before the first triple backtick, or `none` if there is none
(the regex then has no closing fence and the match attempt fails). -/
def beforeTriple : List Char → Option (List Char)
  | [] => none
  | c :: rest =>
    if startsTriple (c :: rest) then some []
    else (beforeTriple rest).map (c :: ·)

/-- Case-insensitive `startsWith` on character lists (re.IGNORECASE). -/
def startsWithCI : List Char → List Char → Bool
  | [], _ => true
  | _ :: _, [] => false
  | p :: ps, c :: cs => (Char.toLower c == Char.toLower p) && startsWithCI ps cs

/-- `re.search` of the pattern `pat ++ \s*(.*?)\s*` ++ ``` : scan for the
leftmost opener occurrence that is followed by a closing triple backtick and
return the raw group (whitespace borders are stripped by the caller). -/
def searchOpen (pat : List Char) : List Char → Option (List Char)
  | [] => none
  | c :: rest =>
    if startsWithCI pat (c :: rest) then
      match beforeTriple ((c :: rest).drop pat.length) with
      | some content => some content
      | none => searchOpen pat rest
    else searchOpen pat rest

/-- The three fence openers tried in order by `_clean_latex` / `_clean_content`. -/
def fenceLatex : List Char := ['`', '`', '`', 'l', 'a', 't', 'e', 'x']

def fenceTex : List Char := ['`', '`', '`', 't', 'e', 'x']

def fencePlain : List Char := ['`', '`', '`']

/-- Core of `_clean_latex` / `_clean_content` on character lists
(`text = text.strip()` happens once, before the pattern loop). -/
def cleanChars (l : List Char) : List Char :=
  match searchOpen fenceLatex (stripWs l) with
  | some c => stripWs c
  | none =>
    match searchOpen fenceTex (stripWs l) with
    | some c => stripWs c
    | none =>
      match searchOpen fencePlain (stripWs l) with
      | some c => stripWs c
      | none => stripWs l

/-- `AdvancedPDFProcessor._clean_latex` (src/advanced_processor.py:346-354). -/
def cleanLatex (s : String) : String := ⟨cleanChars s.data⟩

/-- `OutputValidator._clean_content` (src/smart_summarizer.py:682-689);
textually identical cleanup logic (`return` in place of `break`). -/
def cleanContent (s : String) : String := ⟨cleanChars s.data⟩

/-! ## Chunker (`AdvancedPDFProcessor.create_chunks`,
src/advanced_processor.py:272-302) -/

/-- `PDFChunk` dataclass (src/advanced_processor.py:41-49). -/
structure PDFChunk where
  chunk_id : Nat
  start_page : Nat
  end_page : Nat
  text : String
  char_count : Nat
  title : String
deriving Repr, DecidableEq

/-- Normalization of one Python slice bound for `list[a:b]`:
negative indices count from the end, both ends are clamped to `[0, len]`. -/
def pyNorm (len : Nat) (i : Int) : Nat :=
  if i < 0 then ((len : Int) + i).toNat else min i.toNat len

/-- Python list slice `xs[a:b]` (step 1). -/
def pySlice {α : Type} (xs : List α) (a b : Int) : List α :=
  let s := pyNorm xs.length a
  let e := pyNorm xs.length b
  (xs.drop s).take (e - s)

/-- Per-chunk text: `"\n\n".join(f"[Pagina {pn}]\n{text}" …)`. -/
def chunkText (chunkPages : List (Nat × String)) : String :=
  String.intercalate "\n\n"
    (chunkPages.map fun pt => "[Pagina " ++ toString pt.1 ++ "]\n" ++ pt.2)

/-- Outcome of running the `while` loop of `create_chunks` under a fuel
bound: `timeout` when the fuel is exhausted with the loop still running
(the Python loop has made that many iterations without terminating),
`indexError` when `chunk_pages[0]` would raise on an empty slice. -/
inductive ChunkOutcome where
  | timeout
  | indexError
  | done (chunks : List PDFChunk)
deriving Repr, DecidableEq

/-- The `while i < total_pages` loop of `create_chunks`.  `i` is an `Int`
because Python's `i += self.chunk_size - self.overlap` can make it negative
for adversarial configurations. -/
def createChunksLoop (chunkSize overlap : Int) (pages : List (Nat × String)) :
    Nat → Int → Nat → List PDFChunk → ChunkOutcome
  | fuel, i, chunkId, acc =>
    if i < (pages.length : Int) then
      match fuel with
      | 0 => .timeout
      | fuel' + 1 =>
        let endIdx : Int := min (i + chunkSize) (pages.length : Int)
        let chunkPages := pySlice pages i endIdx
        match chunkPages with
        | [] => .indexError
        | first :: _ =>
          let lastP := chunkPages.getLast?.getD first
          let text := chunkText chunkPages
          let chunk : PDFChunk :=
            { chunk_id := chunkId
              start_page := first.1
              end_page := lastP.1
              text := text
              char_count := text.length
              title := "Sezione " ++ toString (chunkId + 1) ++ " (pp. "
                ++ toString first.1 ++ "-" ++ toString lastP.1 ++ ")" }
          createChunksLoop chunkSize overlap pages fuel'
            (i + (chunkSize - overlap)) (chunkId + 1) (acc ++ [chunk])
    else .done acc

/-- `AdvancedPDFProcessor.create_chunks` under a fuel bound on the number of
loop iterations. -/
def createChunks (chunkSize overlap : Int) (pages : List (Nat × String))
    (fuel : Nat) : ChunkOutcome :=
  createChunksLoop chunkSize overlap pages fuel 0 0 []

/-- The produced chunk list, when the loop terminated. -/
def ChunkOutcome.chunks? : ChunkOutcome → Option (List PDFChunk)
  | .done cs => some cs
  | _ => none

/-! ## KeyPool and ResilientCaller (`LangChainSummarizer`,
src/langchain_summarizer.py)

The mutable attributes of `LangChainSummarizer` touched by the retry and
rotation code, plus an explicit wall clock (advanced by the modelled
`time.sleep` calls) and ghost counters observing the externally visible
side effects (number of LLM invocations, number of 30s all-cooldown backoff
waits, number of 5s transient-retry waits, `stats.api_calls`). -/

structure RetryState where
  apiKeys : List String
  currentKeyIndex : Nat
  /-- `self.key_cooldowns : dict[int, float]`, as an association list whose
  head entry wins (`dict.get(k, 0)` reads the latest binding, default 0). -/
  keyCooldowns : List (Nat × Int)
  /-- The key last passed to `_init_llm` (the credential in use). -/
  llmKey : String
  /-- Wall-clock seconds (`time.time()`), advanced by modelled sleeps. -/
  clock : Int
  invocations : Nat
  backoffSleeps : Nat
  transientSleeps : Nat
  apiCalls : Nat
deriving Repr, DecidableEq

/-- Python `dict.get(k, default)` on the association-list model. -/
def dictGet (d : List (Nat × Int)) (k : Nat) (default : Int) : Int :=
  match d.find? (fun kv => kv.1 == k) with
  | some kv => kv.2
  | none => default

/-- Python `dict[k] = v` on the association-list model. -/
def dictSet (d : List (Nat × Int)) (k : Nat) (v : Int) : List (Nat × Int) :=
  (k, v) :: d

/-- Switch the active credential to index `i` (`_init_llm(self.api_keys[i])`
together with the `current_key_index` assignment already performed). -/
def switchKey (st : RetryState) (i : Nat) : RetryState :=
  { st with currentKeyIndex := i, llmKey := st.apiKeys.getD i "" }

/-- The `for _ in range(len(self.api_keys))` probe loop of
`_rotate_api_key`: advance to `(index + 1) % n`, take that key if its
cooldown has elapsed, otherwise keep probing. -/
def rotateLoop (st : RetryState) : Nat → Bool × RetryState
  | 0 => (false, st)
  | n + 1 =>
    let newIdx := (st.currentKeyIndex + 1) % st.apiKeys.length
    let st' := { st with currentKeyIndex := newIdx }
    if st'.clock ≥ dictGet st'.keyCooldowns newIdx 0 then
      (true, switchKey st' newIdx)
    else rotateLoop st' n

/-- `LangChainSummarizer._rotate_api_key` (src/langchain_summarizer.py:295-314). -/
def rotateApiKey (st : RetryState) : Bool × RetryState :=
  if st.apiKeys.length ≤ 1 then (false, st)
  else rotateLoop st st.apiKeys.length

/-- `LangChainSummarizer._mark_key_rate_limited`
(src/langchain_summarizer.py:316-318). -/
def markKeyRateLimited (st : RetryState) (cooldownSeconds : Int) : RetryState :=
  { st with keyCooldowns :=
      dictSet st.keyCooldowns st.currentKeyIndex (st.clock + cooldownSeconds) }

/-- The rate-limit classifier of `_call_llm_with_retry`
(substring matching on the exception text, src/langchain_summarizer.py:416-421). -/
def isRateLimitErr (e : String) : Bool :=
  strContains e "429" || strContains (strLower e) "quota"
    || strContains (strLower e) "rate" || strContains (strLower e) "resource_exhausted"

/-- The external LLM collaborator: for each invocation number and prompt,
either a response text or an exception message. -/
def LlmOracle := Nat → String → Except String String

/-- The `while total_attempts < max_total_attempts` loop of
`_call_llm_with_retry`; `remaining = max_total_attempts - total_attempts`.
Falling out of the loop returns `""` normally (`return ""`); a re-raised
exception is `Except.error`. -/
def callLoop (llm : LlmOracle) (prompt : String) :
    Nat → RetryState → Except String String × RetryState
  | 0, st => (.ok "", st)
  | remaining + 1, st =>
    let idx := st.invocations
    let st := { st with invocations := st.invocations + 1 }
    match llm idx prompt with
    | .ok content => (.ok content, st)
    | .error e =>
      if isRateLimitErr e then
        let st := markKeyRateLimited st 60
        let rot := rotateApiKey st
        let stR := rot.2
        if rot.1 then callLoop llm prompt remaining stR
        else
          -- all keys cooling down: sleep 30s, reset all cooldowns, retry
          callLoop llm prompt remaining
            { stR with
                clock := stR.clock + 30
                keyCooldowns := []
                backoffSleeps := stR.backoffSleeps + 1 }
      else if remaining = 0 then (.error e, st)
      else
        -- transient failure: sleep 5s and retry
        callLoop llm prompt remaining
          { st with clock := st.clock + 5, transientSleeps := st.transientSleeps + 1 }

/-- `LangChainSummarizer._call_llm_with_retry`
(src/langchain_summarizer.py:380-450), `max_retries` defaulting to 5 at all
call sites.  The attempt budget is
`max_retries * len(api_keys) if api_keys else max_retries`. -/
def callLlmWithRetry (llm : LlmOracle) (prompt : String) (maxRetries : Nat)
    (st : RetryState) : Except String String × RetryState :=
  let maxTotal := if st.apiKeys.isEmpty then maxRetries
                  else maxRetries * st.apiKeys.length
  callLoop llm prompt maxTotal st

/-- Prompt bodies are static configuration data (spec §1 declares the exact
prompt wording out of scope); the map-stage prompt is modelled as a tagged
wrapper of the chunk text. -/
def initialPrompt (text : String) : String := "INITIAL_PROMPT\n" ++ text

/-- Refine-stage prompt wrapper (`REFINE_PROMPT.format(existing_answer=…,
text=…)`), same modelling convention as `initialPrompt`. -/
def refinePrompt (existing text : String) : String :=
  "REFINE_PROMPT\n" ++ existing ++ "\n" ++ text

/-- The `for chunk in chunks[1:]` refinement loop of `_refine_summarize`:
one retry-wrapped call and one `stats.api_calls += 1` per chunk, with a 1s
courtesy sleep after each refinement. -/
def refineLoop (llm : LlmOracle) :
    List String → String → RetryState → Except String String × RetryState
  | [], current, st => (.ok current, st)
  | c :: rest, current, st =>
    match callLlmWithRetry llm (refinePrompt current c) 5 st with
    | (.error e, st') => (.error e, st')
    | (.ok refined, st') =>
      refineLoop llm rest refined
        { st' with apiCalls := st'.apiCalls + 1, clock := st'.clock + 1 }

/-- `LangChainSummarizer._refine_summarize`
(src/langchain_summarizer.py:453-486), chunks abstracted to their
`page_content` strings.  Each logical LLM call increments `stats.api_calls`
by exactly one; an exception from the retry layer propagates. -/
def refineSummarize (llm : LlmOracle) (chunks : List String)
    (st : RetryState) : Except String String × RetryState :=
  match chunks with
  | [] => (.ok "Nessun contenuto da elaborare.", st)
  | c0 :: rest =>
    match callLlmWithRetry llm (initialPrompt c0) 5 st with
    | (.error e, st') => (.error e, st')
    | (.ok summary, st') =>
      refineLoop llm rest summary { st' with apiCalls := st'.apiCalls + 1 }

/-! ## CompilationRecoveryLoop (`LangChainSummarizer.compile_latex_to_pdf`,
src/langchain_summarizer.py:562-658)

The external typesetter is an oracle mapping the attempt number to `none`
(the PDF file was produced) or `some errorLog` (compilation failed with that
log).  Compiler detection (`shutil.which`) and the temp-dir file shuffling
are environment I/O; the model covers the attempt loop after a compiler was
found.  On success the PDF is copied to `output_dir / f"{filename}.pdf"`
and that path is returned. -/

def TexOracle := Nat → Option String

/-- The markdown cleanup applied to the LLM's corrected LaTeX:
`lines[1:-1] if lines[-1].startswith("```") else lines[1:]` when the text
starts with a fence. -/
def stripMarkdownFence (s : String) : String :=
  if s.startsWith "```" then
    let lines := s.splitOn "\n"
    match lines.getLast? with
    | some last =>
      if last.startsWith "```" then
        String.intercalate "\n" ((lines.drop 1).dropLast)
      else String.intercalate "\n" (lines.drop 1)
    | none => String.intercalate "\n" (lines.drop 1)
  else s

/-- The fix prompt built from the tail of the error log and the current
source (src/langchain_summarizer.py:636-644). -/
def fixPromptText (logTail latex : String) : String :=
  "Il seguente codice LaTeX ha errori di compilazione. Correggili e restituisci SOLO il codice LaTeX corretto completo.\n\nERRORI DI COMPILAZIONE:\n"
    ++ logTail ++ "\n\nCODICE LATEX CON ERRORI:\n" ++ latex
    ++ "\n\nCODICE LATEX CORRETTO (solo codice, nessun commento):"

/-- The `for attempt in range(max_fix_attempts)` loop;
`remaining = max_fix_attempts - attempt`.  An exception from the retry layer
propagates out (`Except.error`); otherwise the result is the Python
`(success, pdf_path_or_error)` pair. -/
def compileLoop (tex : TexOracle) (llm : LlmOracle)
    (outputDir filename : String) (maxAttempts : Nat) :
    Nat → String → RetryState → Except String ((Bool × String) × RetryState)
  | 0, _, st => .ok ((false, "Errore sconosciuto nella compilazione"), st)
  | remaining + 1, currentLatex, st =>
    let attempt := maxAttempts - (remaining + 1)
    match tex attempt with
    | none => .ok ((true, outputDir ++ "/" ++ filename ++ ".pdf"), st)
    | some errorLog =>
      if attempt < maxAttempts - 1 then
        match callLlmWithRetry llm
            (fixPromptText (strTakeRight errorLog 3000) currentLatex) 5 st with
        | (.error e, _) => .error e
        | (.ok fixed, st') =>
          compileLoop tex llm outputDir filename maxAttempts remaining
            (stripMarkdownFence fixed) { st' with apiCalls := st'.apiCalls + 1 }
      else
        .ok ((false, "Errori di compilazione dopo " ++ toString maxAttempts
          ++ " tentativi:\n" ++ strTakeRight errorLog 1000), st)

/-- `LangChainSummarizer.compile_latex_to_pdf` after compiler detection. -/
def compileLatexToPdf (tex : TexOracle) (llm : LlmOracle)
    (latexContent outputDir filename : String) (maxFixAttempts : Nat)
    (st : RetryState) : Except String ((Bool × String) × RetryState) :=
  compileLoop tex llm outputDir filename maxFixAttempts
    maxFixAttempts latexContent st

/-! ## MapReduceOrchestrator map phase (`AdvancedPDFProcessor.process`,
src/advanced_processor.py:356-425, stages 2-3)

`ChunkSummary` and the per-chunk summarization are abstracted behind an
oracle (`summarize_chunk` is one retry-wrapped LLM call plus sentinel
scanning); the model captures the chunking call, the progress events and
the strictly sequential map loop. -/

/-- `ChunkSummary` dataclass (src/advanced_processor.py:52-59). -/
structure ChunkSummary where
  chunk_id : Nat
  title : String
  summary : String
  key_points : List String
  definitions : List String
deriving Repr, DecidableEq

/-- A progress event `(message, percent)`; `-1` marks log-only events. -/
abbrev Event := String × Int

/-- The `for i, chunk in enumerate(chunks)` map loop, producing one
summary per chunk in order.  The percentage models
`20 + int((i / len(chunks)) * 50)` by integer arithmetic (the loop body
only runs when `total ≥ 1`; no theorem below depends on float rounding). -/
def mapLoop (summarize : PDFChunk → Except String ChunkSummary)
    (total : Nat) : List PDFChunk → Nat →
    Except String (List ChunkSummary × List Event)
  | [], _ => .ok ([], [])
  | c :: rest, i =>
    let pct : Int := 20 + (i * 50 / total : Nat)
    let ev : Event :=
      ("Analisi chunk " ++ toString (i + 1) ++ "/" ++ toString total
        ++ " (pp. " ++ toString c.start_page ++ "-" ++ toString c.end_page
        ++ ")...", pct)
    match summarize c with
    | .error e => .error e
    | .ok s =>
      match mapLoop summarize total rest (i + 1) with
      | .error e => .error e
      | .ok (ss, evs) => .ok (s :: ss, ev :: evs)

/-- Stages 2-3 of `AdvancedPDFProcessor.process`: chunk the pages, then map
over the chunks, with the surrounding progress reports. -/
def processMapPhase (summarize : PDFChunk → Except String ChunkSummary)
    (chunkSize overlap : Int) (pages : List (Nat × String)) (fuel : Nat) :
    Except String (List ChunkSummary × List Event) :=
  match createChunks chunkSize overlap pages fuel with
  | .done chunks =>
    match mapLoop summarize chunks.length chunks 0 with
    | .error e => .error e
    | .ok (ss, evs) =>
      .ok (ss,
        [("Creazione chunk logici...", 15),
         ("Creati " ++ toString chunks.length ++ " chunk da elaborare", 20)]
        ++ evs
        ++ [("Completata analisi di " ++ toString ss.length ++ " sezioni", 70)])
  | _ => .error "chunking did not terminate"

/-! ## Coverage validator (`OutputValidator._calculate_coverage`,
src/smart_summarizer.py:691-723) -/

/-- `ExtractedTerm` dataclass (src/smart_summarizer.py:64-71). -/
structure ExtractedTerm where
  term : String
  term_type : String
  context : String
  page : Nat
  frequency : Nat := 1
deriving Repr, DecidableEq

/-- Result dictionary of `_calculate_coverage`. -/
structure CoverageResult where
  found : Nat
  total : Nat
  percentage : ℚ
  missing : List String
deriving Repr, DecidableEq

/-- One iteration of the term loop: does this term count as found?
Exact (case-insensitive or verbatim) containment, else a partial match on
any split word longer than 4 characters. -/
def termFound (content contentLower : String) (t : ExtractedTerm) : Bool :=
  let termLower := strLower t.term
  if strContains contentLower termLower || strContains content t.term then
    true
  else
    (splitWs termLower).any fun w => w.length > 4 && strContains contentLower w

/-- The `for term in analysis.all_terms` loop, accumulating the found count
and the missing list in order. -/
def coverageLoop (content contentLower : String) :
    List ExtractedTerm → Nat × List String
  | [] => (0, [])
  | t :: rest =>
    let r := coverageLoop content contentLower rest
    if termFound content contentLower t then (r.1 + 1, r.2)
    else (r.1, t.term :: r.2)

/-- `OutputValidator._calculate_coverage`: the division is over ℚ (Python
uses float division; the bounds proved below are exact at the rational
level and the denominator `len(all_terms) or 1` is never zero). -/
def calculateCoverage (content : String) (allTerms : List ExtractedTerm) :
    CoverageResult :=
  let contentLower := strLower content
  let fm := coverageLoop content contentLower allTerms
  let total : Nat := if allTerms.length = 0 then 1 else allTerms.length
  { found := fm.1
    total := total
    percentage := ((fm.1 : ℚ) / (total : ℚ)) * 100
    missing := fm.2.eraseDups }

/-! ## Concrete fixtures used by witnesses and scenario theorems -/

/-- A fresh `LangChainSummarizer` with one configured credential
(`api_keys = [k]`, `current_key_index = 0`, empty cooldown dict) observed at
wall-clock time 0, before any call. -/
def initState : RetryState :=
  { apiKeys := ["k"], currentKeyIndex := 0, keyCooldowns := [], llmKey := "k"
    clock := 0, invocations := 0, backoffSleeps := 0, transientSleeps := 0
    apiCalls := 0 }

/-- A two-credential pool where key 1 finished its cooldown at time 50 and
the clock reads 100. -/
def twoKeyState : RetryState :=
  { initState with apiKeys := ["k1", "k2"], keyCooldowns := [(1, 50)]
                   clock := 100 }

/-- 32 pages numbered 1..32, each with (non-empty) text `"x"`. -/
def pages32 : List (Nat × String) := (List.range 32).map fun n => (n + 1, "x")

/-- An external model that reports a rate-limit signal on its first two
invocations and succeeds on the third. -/
def llm6 : LlmOracle := fun n _ =>
  if n < 2 then .error "429 quota exceeded" else .ok "TESTO FINALE"

/-! ## Theorems -/

/-- With `chunk_size = overlap = 2` on a non-empty page list the sliding
window of `create_chunks` makes zero progress (`i += chunk_size - overlap`
adds 0), so the while loop never exits: no fuel bound suffices, and no
`ConfigurationError` (or any other exception) is ever raised. -/
theorem stride_zero_timeout :
    ∀ (fuel chunkId : Nat) (acc : List PDFChunk),
      createChunksLoop 2 2 [(1, "a"), (2, "b")] fuel 0 chunkId acc
        = .timeout := by
  intro fuel
  induction fuel with
  | zero =>
    intro chunkId acc
    rw [createChunksLoop]
    norm_num
  | succ n ih =>
    intro chunkId acc
    rw [createChunksLoop]
    norm_num [pySlice, pyNorm]
    simp only [show List.take (Int.toNat 2) [((1 : Nat), "a"), (2, "b")]
      = [(1, "a"), (2, "b")] from rfl]
    exact ih (chunkId + 1) _

/-- C2: the claim says `chunk_size ≤ overlap` is rejected with
`ConfigurationError` before any chunk is produced.  The code performs no
validation: on the failing input `chunk_size = 2, overlap = 2` with the
two-page document `[(1, "a"), (2, "b")]`, the loop runs forever (for every
iteration bound `fuel` the evaluation is still running), never raising and
never producing the chunk sequence. -/
theorem C2_no_configuration_error_infinite_loop :
    ∀ fuel : Nat, createChunks 2 2 [(1, "a"), (2, "b")] fuel = .timeout := by
  intro fuel
  exact stride_zero_timeout fuel 0 []

/-- C4: on 32 pages numbered 1..32 with `chunk_size = 15, overlap = 2`,
`create_chunks` yields exactly three chunks with id/page ranges
`(0, 1-15), (1, 14-28), (2, 27-32)`, the last spanning 6 < 15 pages. -/
theorem C4_scenario_32_pages :
    ((createChunks 15 2 pages32 32).chunks?.map
        (List.map fun c => (c.chunk_id, c.start_page, c.end_page)))
      = some [(0, 1, 15), (1, 14, 28), (2, 27, 32)]
    ∧ ((createChunks 15 2 pages32 32).chunks?.map List.length) = some 3
    ∧ ((createChunks 15 2 pages32 32).chunks?.bind List.getLast?).map
        (fun c => c.end_page + 1 - c.start_page) = some 6
    ∧ 6 < 15 := by
  refine ⟨by decide, by decide, by decide, by decide⟩

/-- C8: the empty page sequence yields an empty chunk sequence without any
error, and the orchestrator's map phase completes normally, reporting
"Creati 0 chunk" and "Completata analisi di 0 sezioni" with zero summaries,
for every configuration and summarization oracle. -/
theorem C8_empty_pages_empty_chunks
    (chunkSize overlap : Int) (fuel : Nat)
    (summarize : PDFChunk → Except String ChunkSummary) :
    createChunks chunkSize overlap [] fuel = .done []
    ∧ processMapPhase summarize chunkSize overlap [] fuel =
        .ok ([],
          [("Creazione chunk logici...", 15),
           ("Creati 0 chunk da elaborare", 20),
           ("Completata analisi di 0 sezioni", 70)]) := by
  have hchunks : createChunks chunkSize overlap [] fuel = .done [] := by
    rw [createChunks, createChunksLoop.eq_def]
    norm_num
  refine ⟨hchunks, ?_⟩
  rw [processMapPhase, hchunks]
  rfl

/-! ### Retry bound and exhaustion behaviour (C1, C6) -/

lemma rotateLoop_invocations :
    ∀ (n : Nat) (st : RetryState), ((rotateLoop st n).2).invocations = st.invocations := by
  intro n
  induction n with
  | zero => intro st; rfl
  | succ m ih =>
    intro st
    rw [rotateLoop]
    split
    · rfl
    · exact ih _

lemma rotateApiKey_invocations (st : RetryState) :
    ((rotateApiKey st).2).invocations = st.invocations := by
  rw [rotateApiKey]
  split
  · rfl
  · exact rotateLoop_invocations _ _

/-- Each loop entry of `_call_llm_with_retry` performs exactly one external
invocation before decrementing the remaining budget, so the invocation
counter grows by at most the remaining budget. -/
lemma callLoop_invocations_le (llm : LlmOracle) (prompt : String) :
    ∀ (remaining : Nat) (st : RetryState),
      ((callLoop llm prompt remaining st).2).invocations
        ≤ st.invocations + remaining := by
  intro remaining
  induction remaining with
  | zero => intro st; simp [callLoop]
  | succ n ih =>
    intro st
    rw [callLoop]
    cases hl : llm st.invocations prompt with
    | ok c => simp
    | error e =>
      simp only
      split
      · set st1 := markKeyRateLimited { st with invocations := st.invocations + 1 } 60 with hst1
        have hinv1 : st1.invocations = st.invocations + 1 := rfl
        have hrot : ((rotateApiKey st1).2).invocations = st.invocations + 1 := by
          rw [rotateApiKey_invocations, hinv1]
        split
        · have := ih (rotateApiKey st1).2
          omega
        · have := ih { (rotateApiKey st1).2 with
            clock := ((rotateApiKey st1).2).clock + 30
            keyCooldowns := []
            backoffSleeps := ((rotateApiKey st1).2).backoffSleeps + 1 }
          simp only at this
          omega
      · split
        · simp
        · have := ih { st with
            invocations := st.invocations + 1
            clock := st.clock + 5
            transientSleeps := st.transientSleeps + 1 }
          simp only at this
          omega

/-- If every invocation fails with a rate-limit-classified error, the loop
always takes the rotation/backoff branch and, once the budget is exhausted,
falls out of the `while` and returns `""` normally. -/
lemma callLoop_all_rate_limited (llm : LlmOracle) (prompt : String)
    (h : ∀ n p, ∃ e, llm n p = .error e ∧ isRateLimitErr e = true) :
    ∀ (remaining : Nat) (st : RetryState),
      (callLoop llm prompt remaining st).1 = .ok "" := by
  intro remaining
  induction remaining with
  | zero => intro st; rfl
  | succ n ih =>
    intro st
    obtain ⟨e, he, hrl⟩ := h st.invocations prompt
    rw [callLoop, he]
    simp only [hrl, if_true]
    split
    · exact ih _
    · exact ih _

/-- C1 (amended): `_call_llm_with_retry` performs at most
`max_retries × len(api_keys)` external invocations; but when the attempt
budget is exhausted with every failure classified as a rate limit, it does
NOT raise — it falls out of the loop and returns the empty string normally
(the repository also has no `ExhaustedRetriesError` type; non-rate-limit
exhaustion re-raises the last underlying exception instead). -/
theorem C1_retry_bound_amended (llm : LlmOracle) (prompt : String)
    (maxRetries : Nat) (st : RetryState) (hkeys : st.apiKeys ≠ []) :
    ((callLlmWithRetry llm prompt maxRetries st).2).invocations
        ≤ st.invocations + maxRetries * st.apiKeys.length
    ∧ ((∀ n p, ∃ e, llm n p = .error e ∧ isRateLimitErr e = true) →
        (callLlmWithRetry llm prompt maxRetries st).1 = .ok "") := by
  have hne : st.apiKeys.isEmpty = false := by
    simpa [List.isEmpty_iff] using hkeys
  constructor
  · have := callLoop_invocations_le llm prompt
      (if st.apiKeys.isEmpty then maxRetries else maxRetries * st.apiKeys.length) st
    rw [hne] at this
    simpa [callLlmWithRetry, hne] using this
  · intro hall
    have := callLoop_all_rate_limited llm prompt hall
      (if st.apiKeys.isEmpty then maxRetries else maxRetries * st.apiKeys.length) st
    simpa [callLlmWithRetry] using this

/-- Witness for C1: the single-key state satisfies the hypothesis and the
bound and the empty-string return are realized at `max_retries = 2`. -/
theorem C1_retry_bound_amended_witness :
    initState.apiKeys ≠ []
    ∧ (((callLlmWithRetry (fun _ _ => .error "429") "p" 2 initState).2).invocations
          ≤ initState.invocations + 2 * initState.apiKeys.length
        ∧ ((∀ n p, ∃ e, (fun (_ : Nat) (_ : String) =>
              (Except.error "429" : Except String String)) n p = .error e
                ∧ isRateLimitErr e = true) →
            (callLlmWithRetry (fun _ _ => .error "429") "p" 2 initState).1 = .ok "")) :=
  ⟨by decide, C1_retry_bound_amended (fun _ _ => .error "429") "p" 2 initState (by decide)⟩

/-- Counterexample to C1 as stated: with one credential and
`max_retries = 1`, a model that always reports a 429 exhausts the attempt
budget (`1 × 1` invocation is performed) and the call then RETURNS NORMALLY
with `""` instead of raising anything. -/
theorem C1_counterexample :
    (callLlmWithRetry (fun _ _ => .error "429") "p" 1 initState).1 = .ok ""
    ∧ ((callLlmWithRetry (fun _ _ => .error "429") "p" 1 initState).2).invocations
        = 1 * initState.apiKeys.length :=
  ⟨rfl, rfl⟩

/-- Counterexample to C6 as stated: in the single-credential
rate-limit-twice-then-succeed scenario, the shared `stats.api_calls`
counter is incremented by 1 (once per logical call, at the call site in
`_refine_summarize`) — not by 3. -/
theorem C6_counterexample :
    ((refineSummarize llm6 ["capitolo"] initState).2).apiCalls = 1
    ∧ ((refineSummarize llm6 ["capitolo"] initState).2).apiCalls ≠ 3 :=
  ⟨rfl, by decide⟩

/-- C6 (amended): with a single credential and a model rate-limited on the
first two invocations, `call` returns the success text after exactly 2
cooldown/backoff cycles (30s waits with cooldown reset) and 3 external
invocations; the shared `stats.api_calls` counter increases by 1, since it
counts logical calls, not external invocations. -/
theorem C6_single_credential_scenario :
    (refineSummarize llm6 ["capitolo"] initState).1 = .ok "TESTO FINALE"
    ∧ ((refineSummarize llm6 ["capitolo"] initState).2).invocations = 3
    ∧ ((refineSummarize llm6 ["capitolo"] initState).2).backoffSleeps = 2
    ∧ ((refineSummarize llm6 ["capitolo"] initState).2).apiCalls = 1 :=
  ⟨rfl, rfl, rfl, rfl⟩

/-! ### Key rotation (C5) -/

/-- Is credential `i`'s cooldown elapsed at the state's clock
(`current_time >= self.key_cooldowns.get(i, 0)`)? -/
def keyEligible (st : RetryState) (i : Nat) : Bool :=
  decide (st.clock ≥ dictGet st.keyCooldowns i 0)

/-- The indices probed by `_rotate_api_key`, in order: round-robin starting
just after the current index, wrapping around, `k` probes in total. -/
def probeSeq (st : RetryState) (k : Nat) : List Nat :=
  (List.range k).map fun j => (st.currentKeyIndex + 1 + j) % st.apiKeys.length

lemma rotateLoop_spec :
    ∀ (k : Nat) (st : RetryState),
      st.currentKeyIndex < st.apiKeys.length →
      rotateLoop st k =
        (match (probeSeq st k).find? (keyEligible st) with
         | some i => (true, switchKey st i)
         | none => (false, { st with currentKeyIndex :=
             (st.currentKeyIndex + k) % st.apiKeys.length })) := by
  intro k
  induction k with
  | zero =>
    intro st h
    simp [probeSeq, rotateLoop, Nat.mod_eq_of_lt h]
  | succ n ih =>
    intro st h
    have hn : 0 < st.apiKeys.length := by omega
    rw [rotateLoop]
    have hseq : probeSeq st (n + 1) =
        ((st.currentKeyIndex + 1) % st.apiKeys.length)
          :: probeSeq { st with
              currentKeyIndex := (st.currentKeyIndex + 1) % st.apiKeys.length } n := by
      unfold probeSeq
      rw [List.range_succ_eq_map, List.map_cons, List.map_map]
      refine congrArg₂ _ (by simp) ?_
      refine List.map_congr_left fun j _ => ?_
      show (st.currentKeyIndex + 1 + (j + 1)) % st.apiKeys.length
        = ((st.currentKeyIndex + 1) % st.apiKeys.length + 1 + j) % st.apiKeys.length
      rw [Nat.add_assoc ((st.currentKeyIndex + 1) % st.apiKeys.length) 1 j,
        Nat.mod_add_mod]
      exact congrArg (· % st.apiKeys.length) (by omega)
    rw [hseq]
    by_cases hel : st.clock ≥ dictGet st.keyCooldowns
        ((st.currentKeyIndex + 1) % st.apiKeys.length) 0
    · have hkel : keyEligible st ((st.currentKeyIndex + 1) % st.apiKeys.length)
          = true := by
        simpa [keyEligible] using hel
      simp only [List.find?_cons_of_pos _ hkel]
      split
      · rfl
      · next hcond => exact absurd hel (by simpa using hcond)
    · have hkel : keyEligible st ((st.currentKeyIndex + 1) % st.apiKeys.length)
          = false := by
        simpa [keyEligible] using hel
      rw [List.find?_cons_of_neg _ (by simp [hkel])]
      have hlt : ((st.currentKeyIndex + 1) % st.apiKeys.length) < st.apiKeys.length :=
        Nat.mod_lt _ hn
      have hIH := ih { st with
          currentKeyIndex := (st.currentKeyIndex + 1) % st.apiKeys.length } hlt
      rw [show keyEligible { st with
            currentKeyIndex := (st.currentKeyIndex + 1) % st.apiKeys.length }
          = keyEligible st from rfl] at hIH
      split
      · next hcond => exact absurd (by simpa using hcond) hel
      · next hcond =>
        rw [hIH]
        have harith : ((st.currentKeyIndex + 1) % st.apiKeys.length + n)
            % st.apiKeys.length
            = (st.currentKeyIndex + (n + 1)) % st.apiKeys.length := by
          rw [Nat.mod_add_mod]
          exact congrArg (· % st.apiKeys.length) (by omega)
        cases hf : (probeSeq { st with
            currentKeyIndex := (st.currentKeyIndex + 1) % st.apiKeys.length } n).find?
            (keyEligible st) with
        | none => simp [hf, harith]
        | some i => simp [hf, switchKey]

/-- Every index below the pool size occurs among the `n` round-robin probes. -/
lemma mem_probeSeq (st : RetryState) (hn : 0 < st.apiKeys.length)
    (i : Nat) (hi : i < st.apiKeys.length) :
    i ∈ probeSeq st st.apiKeys.length := by
  unfold probeSeq
  refine List.mem_map.mpr ?_
  have ha : (st.currentKeyIndex + 1) % st.apiKeys.length < st.apiKeys.length :=
    Nat.mod_lt _ hn
  by_cases hc : (st.currentKeyIndex + 1) % st.apiKeys.length ≤ i
  · refine ⟨i - (st.currentKeyIndex + 1) % st.apiKeys.length,
      List.mem_range.mpr (by omega), ?_⟩
    rw [← Nat.mod_add_mod]
    have h2 : (st.currentKeyIndex + 1) % st.apiKeys.length
        + (i - (st.currentKeyIndex + 1) % st.apiKeys.length) = i := by omega
    rw [h2, Nat.mod_eq_of_lt hi]
  · refine ⟨st.apiKeys.length + i - (st.currentKeyIndex + 1) % st.apiKeys.length,
      List.mem_range.mpr (by omega), ?_⟩
    rw [← Nat.mod_add_mod]
    have h2 : (st.currentKeyIndex + 1) % st.apiKeys.length
        + (st.apiKeys.length + i - (st.currentKeyIndex + 1) % st.apiKeys.length)
        = st.apiKeys.length + i := by omega
    rw [h2, Nat.add_mod_left, Nat.mod_eq_of_lt hi]

/-- C5 (amended): `_rotate_api_key` probes round-robin starting just after
the current index, wrapping around, and switches to the first credential
whose cooldown has elapsed; with at least two credentials it returns `false`
iff every credential (current one included) is still cooling down.  With a
single credential (or none) it returns `false` unconditionally — it never
even checks that credential's cooldown. -/
theorem C5_rotation_amended (st : RetryState)
    (hidx : st.currentKeyIndex < st.apiKeys.length) :
    (st.apiKeys.length ≤ 1 → rotateApiKey st = (false, st))
    ∧ (2 ≤ st.apiKeys.length →
        (rotateApiKey st =
          match (probeSeq st st.apiKeys.length).find? (keyEligible st) with
          | some i => (true, switchKey st i)
          | none => (false, st))
        ∧ ((rotateApiKey st).1 = false ↔
            ∀ i < st.apiKeys.length, keyEligible st i = false)) := by
  constructor
  · intro h1
    rw [rotateApiKey, if_pos h1]
  · intro h2
    have hn : 0 < st.apiKeys.length := by omega
    have hmod : (st.currentKeyIndex + st.apiKeys.length) % st.apiKeys.length
        = st.currentKeyIndex := by
      rw [Nat.add_mod_right, Nat.mod_eq_of_lt hidx]
    have heq : rotateApiKey st =
        match (probeSeq st st.apiKeys.length).find? (keyEligible st) with
        | some i => (true, switchKey st i)
        | none => (false, st) := by
      rw [rotateApiKey, if_neg (by omega),
        rotateLoop_spec st.apiKeys.length st hidx]
      cases hf : (probeSeq st st.apiKeys.length).find? (keyEligible st) with
      | some i => simp [hf]
      | none => simp [hf, hmod]
    refine ⟨heq, ?_⟩
    rw [heq]
    cases hf : (probeSeq st st.apiKeys.length).find? (keyEligible st) with
    | some i =>
      have hkel : keyEligible st i = true := List.find?_some hf
      have hmem : i ∈ probeSeq st st.apiKeys.length :=
        List.mem_of_find?_eq_some hf
      have hiN : i < st.apiKeys.length := by
        obtain ⟨j, _, hji⟩ := List.mem_map.mp hmem
        rw [← hji]
        exact Nat.mod_lt _ hn
      simp only
      constructor
      · intro habs
        exact absurd habs (by simp)
      · intro hall
        exact absurd hkel (by simp [hall i hiN])
    | none =>
      have hall := List.find?_eq_none.mp hf
      simp only
      constructor
      · intro _ i hiN
        have := hall i (mem_probeSeq st hn i hiN)
        simpa using this
      · intro _
        trivial

/-- Counterexample to C5 as stated: with a single-credential pool whose
only credential's cooldown has elapsed, `_rotate_api_key` still returns
`false` (the `len(api_keys) <= 1` early exit), contradicting both "stops at
the first credential whose cooldown has elapsed ... returning true" and
"returns false if and only if all credentials are currently cooling down". -/
theorem C5_counterexample :
    (rotateApiKey initState).1 = false
    ∧ keyEligible initState 0 = true
    ∧ initState.apiKeys.length = 1 := by
  refine ⟨rfl, by decide, rfl⟩

/-- Witness for C5 (amended) at a concrete two-credential pool in which key
1 has finished its cooldown: the hypothesis holds and the rotation follows
the probe-order characterization. -/
theorem C5_rotation_amended_witness :
    twoKeyState.currentKeyIndex < twoKeyState.apiKeys.length
    ∧ ((twoKeyState.apiKeys.length ≤ 1 →
          rotateApiKey twoKeyState = (false, twoKeyState))
       ∧ (2 ≤ twoKeyState.apiKeys.length →
          (rotateApiKey twoKeyState =
            match (probeSeq twoKeyState twoKeyState.apiKeys.length).find?
                (keyEligible twoKeyState) with
            | some i => (true, switchKey twoKeyState i)
            | none => (false, twoKeyState))
          ∧ ((rotateApiKey twoKeyState).1 = false ↔
              ∀ i < twoKeyState.apiKeys.length,
                keyEligible twoKeyState i = false))) :=
  ⟨by decide, C5_rotation_amended twoKeyState (by decide)⟩

/-! ### Compilation recovery loop (C7) -/

/-- When the model answers the very first retry-loop invocation, the
retry wrapper returns that answer after exactly one invocation. -/
lemma callLlmWithRetry_ok_now (llm : LlmOracle) (prompt : String)
    (st : RetryState) (t : String)
    (h : llm st.invocations prompt = .ok t) :
    callLlmWithRetry llm prompt 5 st
      = (.ok t, { st with invocations := st.invocations + 1 }) := by
  rw [callLlmWithRetry]
  have hM : (if st.apiKeys.isEmpty then 5 else 5 * st.apiKeys.length) ≠ 0 := by
    split
    · omega
    · next hk =>
      have hne : st.apiKeys ≠ [] := by
        intro hnil
        rw [hnil] at hk
        simp at hk
      have hlen : 0 < st.apiKeys.length := List.length_pos.mpr hne
      omega
  obtain ⟨m, hm⟩ := Nat.exists_eq_succ_of_ne_zero hM
  rw [hm, callLoop]
  simp only [h]

/-- A failed typesetting attempt that is not the last one: capture the log,
ask the model for a fix, strip markdown fences, count the api call, retry. -/
lemma compileLoop_fail_step (tex : TexOracle) (llm : LlmOracle)
    (outputDir filename : String) (maxA remaining : Nat) (cur : String)
    (st : RetryState) (l t : String)
    (htex : tex (maxA - (remaining + 1)) = some l)
    (hlt : maxA - (remaining + 1) < maxA - 1)
    (hllm : llm st.invocations (fixPromptText (strTakeRight l 3000) cur) = .ok t) :
    compileLoop tex llm outputDir filename maxA (remaining + 1) cur st
      = compileLoop tex llm outputDir filename maxA remaining
          (stripMarkdownFence t)
          { st with invocations := st.invocations + 1
                    apiCalls := st.apiCalls + 1 } := by
  rw [compileLoop, htex]
  simp only [if_pos hlt, callLlmWithRetry_ok_now llm _ st t hllm]

/-- A successful typesetting attempt returns the output-directory path. -/
lemma compileLoop_success (tex : TexOracle) (llm : LlmOracle)
    (outputDir filename : String) (maxA remaining : Nat) (cur : String)
    (st : RetryState)
    (htex : tex (maxA - (remaining + 1)) = none) :
    compileLoop tex llm outputDir filename maxA (remaining + 1) cur st
      = .ok ((true, outputDir ++ "/" ++ filename ++ ".pdf"), st) := by
  rw [compileLoop, htex]

/-- A failed last attempt returns failure with the tail of the last log. -/
lemma compileLoop_final_fail (tex : TexOracle) (llm : LlmOracle)
    (outputDir filename : String) (maxA remaining : Nat) (cur : String)
    (st : RetryState) (l : String)
    (htex : tex (maxA - (remaining + 1)) = some l)
    (hge : ¬ maxA - (remaining + 1) < maxA - 1) :
    compileLoop tex llm outputDir filename maxA (remaining + 1) cur st
      = .ok ((false, "Errori di compilazione dopo " ++ toString maxA
          ++ " tentativi:\n" ++ strTakeRight l 1000), st) := by
  rw [compileLoop, htex]
  simp only [if_neg hge]

/-- C7: with `max_attempts = 3` and a fix model that always answers, if
typesetting fails on attempts 0 and 1 and succeeds on attempt 2,
`compile_latex_to_pdf` returns success with the artifact path
`output_dir/filename.pdf`; if all three attempts fail, it returns failure
carrying the last 1000 characters of the last attempt's error log. -/
theorem C7_compile_autofix (llm : LlmOracle)
    (latex outputDir filename : String) (st : RetryState)
    (hfix : ∀ n p, ∃ t, llm n p = Except.ok t) :
    (∀ (tex : TexOracle) (l0 l1 : String),
      tex 0 = some l0 → tex 1 = some l1 → tex 2 = none →
      ∃ st', compileLatexToPdf tex llm latex outputDir filename 3 st
        = .ok ((true, outputDir ++ "/" ++ filename ++ ".pdf"), st'))
    ∧ (∀ (tex : TexOracle) (l0 l1 l2 : String),
      tex 0 = some l0 → tex 1 = some l1 → tex 2 = some l2 →
      ∃ st', compileLatexToPdf tex llm latex outputDir filename 3 st
        = .ok ((false, "Errori di compilazione dopo 3 tentativi:\n"
            ++ strTakeRight l2 1000), st')) := by
  constructor
  · intro tex l0 l1 h0 h1 h2
    obtain ⟨t0, ht0⟩ :=
      hfix st.invocations (fixPromptText (strTakeRight l0 3000) latex)
    obtain ⟨t1, ht1⟩ :=
      hfix (st.invocations + 1)
        (fixPromptText (strTakeRight l1 3000) (stripMarkdownFence t0))
    refine ⟨{ st with invocations := st.invocations + 1 + 1
                      apiCalls := st.apiCalls + 1 + 1 }, ?_⟩
    rw [compileLatexToPdf,
      compileLoop_fail_step tex llm outputDir filename 3 2 latex st l0 t0
        h0 (by decide) ht0,
      compileLoop_fail_step tex llm outputDir filename 3 1
        (stripMarkdownFence t0) _ l1 t1 h1 (by decide) ht1,
      compileLoop_success tex llm outputDir filename 3 0 _ _ h2]
  · intro tex l0 l1 l2 h0 h1 h2
    obtain ⟨t0, ht0⟩ :=
      hfix st.invocations (fixPromptText (strTakeRight l0 3000) latex)
    obtain ⟨t1, ht1⟩ :=
      hfix (st.invocations + 1)
        (fixPromptText (strTakeRight l1 3000) (stripMarkdownFence t0))
    refine ⟨{ st with invocations := st.invocations + 1 + 1
                      apiCalls := st.apiCalls + 1 + 1 }, ?_⟩
    rw [compileLatexToPdf,
      compileLoop_fail_step tex llm outputDir filename 3 2 latex st l0 t0
        h0 (by decide) ht0,
      compileLoop_fail_step tex llm outputDir filename 3 1
        (stripMarkdownFence t0) _ l1 t1 h1 (by decide) ht1,
      compileLoop_final_fail tex llm outputDir filename 3 0 _ _ l2 h2
        (by decide)]
    rfl

/-- Witness for C7 at concrete oracles: a typesetter that fails twice then
succeeds, and an always-failing one, with an always-answering fix model. -/
theorem C7_compile_autofix_witness :
    (∀ (n : Nat) (p : String), ∃ t,
      (fun (_ : Nat) (_ : String) =>
        (Except.ok "fixed" : Except String String)) n p = Except.ok t)
    ∧ (∃ st', compileLatexToPdf (fun a => if a = 2 then none else some "log")
        (fun _ _ => .ok "fixed") "\\documentclass" "out" "doc" 3 initState
        = .ok ((true, "out" ++ "/" ++ "doc" ++ ".pdf"), st'))
    ∧ (∃ st', compileLatexToPdf (fun _ => some "log")
        (fun _ _ => .ok "fixed") "\\documentclass" "out" "doc" 3 initState
        = .ok ((false, "Errori di compilazione dopo 3 tentativi:\n"
            ++ strTakeRight "log" 1000), st')) :=
  ⟨fun _ _ => ⟨"fixed", rfl⟩,
   (C7_compile_autofix (fun _ _ => .ok "fixed") "\\documentclass" "out" "doc"
      initState (fun _ _ => ⟨"fixed", rfl⟩)).1
      (fun a => if a = 2 then none else some "log") "log" "log" rfl rfl rfl,
   (C7_compile_autofix (fun _ _ => .ok "fixed") "\\documentclass" "out" "doc"
      initState (fun _ _ => ⟨"fixed", rfl⟩)).2
      (fun _ => some "log") "log" "log" "log" rfl rfl rfl⟩

/-! ### Coverage computation (C10) -/

/-- Each loop iteration of `_calculate_coverage` counts a term as found at
most once, so `found` never exceeds the number of terms. -/
lemma coverageLoop_found_le (content contentLower : String) :
    ∀ terms : List ExtractedTerm,
      (coverageLoop content contentLower terms).1 ≤ terms.length := by
  intro terms
  induction terms with
  | nil => simp [coverageLoop]
  | cons t rest ih =>
    rw [coverageLoop]
    simp only [List.length_cons]
    split
    · simpa using ih
    · simp only
      omega

/-- C10: the coverage computation is total — the denominator
`len(all_terms) or 1` is at least 1 (never zero, in particular for an empty
extracted-term list), the found count never exceeds the number of extracted
terms, and the reported percentage always lies in [0, 100]. -/
theorem C10_coverage_total_and_bounded (content : String)
    (allTerms : List ExtractedTerm) :
    1 ≤ (calculateCoverage content allTerms).total
    ∧ (calculateCoverage content allTerms).found ≤ allTerms.length
    ∧ 0 ≤ (calculateCoverage content allTerms).percentage
    ∧ (calculateCoverage content allTerms).percentage ≤ 100 := by
  have hfound := coverageLoop_found_le content (strLower content) allTerms
  unfold calculateCoverage
  simp only
  refine ⟨by split <;> omega, hfound, by positivity, ?_⟩
  have htpos : (0 : ℚ) <
      ((if allTerms.length = 0 then 1 else allTerms.length : Nat) : ℚ) := by
    have : 0 < (if allTerms.length = 0 then 1 else allTerms.length : Nat) := by
      split <;> omega
    exact_mod_cast this
  have hle : (((coverageLoop content (strLower content) allTerms).1 : Nat) : ℚ)
      ≤ ((if allTerms.length = 0 then 1 else allTerms.length : Nat) : ℚ) := by
    have : (coverageLoop content (strLower content) allTerms).1
        ≤ (if allTerms.length = 0 then 1 else allTerms.length : Nat) := by
      split <;> omega
    exact_mod_cast this
  calc ((coverageLoop content (strLower content) allTerms).1 : ℚ)
        / ((if allTerms.length = 0 then 1 else allTerms.length : Nat) : ℚ) * 100
      ≤ 1 * 100 :=
        mul_le_mul_of_nonneg_right ((div_le_one htpos).mpr hle) (by norm_num)
    _ = 100 := by norm_num

/-! ### Code-fence cleanup idempotence (C9) -/

lemma startsTriple_append (x y : List Char) :
    startsTriple x = true → startsTriple (x ++ y) = true := by
  intro h
  match x with
  | [] => simp [startsTriple] at h
  | [a] => simp [startsTriple] at h
  | [a, b] => simp [startsTriple] at h
  | a :: b :: c :: t => simpa [startsTriple] using h

lemma hasTriple_cons (c : Char) (r : List Char) :
    hasTriple (c :: r) = (startsTriple (c :: r) || hasTriple r) := by
  rw [hasTriple]

lemma hasTriple_append_left (x y : List Char) :
    hasTriple (x ++ y) = false → hasTriple x = false := by
  induction x with
  | nil => intro _; rfl
  | cons c x' ih =>
    intro h
    rw [List.cons_append, hasTriple_cons] at h
    simp only [Bool.or_eq_false_iff] at h
    rw [hasTriple_cons]
    simp only [Bool.or_eq_false_iff]
    constructor
    · by_contra hst
      simp only [Bool.not_eq_false] at hst
      have := startsTriple_append (c :: x') y hst
      rw [List.cons_append] at this
      rw [this] at h
      exact absurd h.1 (by simp)
    · exact ih h.2

lemma hasTriple_append_right (x y : List Char) :
    hasTriple (x ++ y) = false → hasTriple y = false := by
  induction x with
  | nil => intro h; simpa using h
  | cons c x' ih =>
    intro h
    rw [List.cons_append, hasTriple_cons] at h
    simp only [Bool.or_eq_false_iff] at h
    exact ih h.2

lemma hasTriple_dropWhile (p : Char → Bool) (l : List Char) :
    hasTriple l = false → hasTriple (l.dropWhile p) = false := by
  induction l with
  | nil => intro _; rfl
  | cons c r ih =>
    intro h
    rw [hasTriple_cons] at h
    simp only [Bool.or_eq_false_iff] at h
    rw [List.dropWhile_cons]
    split
    · exact ih h.2
    · rw [hasTriple_cons]
      simp [h.1, h.2]

lemma stripL_no_triple (l : List Char) :
    hasTriple l = false → hasTriple (stripL l) = false :=
  hasTriple_dropWhile isWs l

lemma stripR_no_triple (l : List Char) :
    hasTriple l = false → hasTriple (stripR l) = false := by
  intro h
  obtain ⟨t, ht⟩ : l.reverse.dropWhile isWs <:+ l.reverse :=
    List.dropWhile_suffix isWs
  have hl : l = (l.reverse.dropWhile isWs).reverse ++ t.reverse := by
    have := congrArg List.reverse ht
    simpa [List.reverse_append] using this.symm
  rw [hl] at h
  exact hasTriple_append_left _ _ h

lemma stripWs_no_triple (l : List Char) :
    hasTriple l = false → hasTriple (stripWs l) = false := fun h =>
  stripR_no_triple _ (stripL_no_triple _ h)

lemma beforeTriple_isPre :
    ∀ (l c : List Char), beforeTriple l = some c → c <+: l := by
  intro l
  induction l with
  | nil => intro c h; exact Option.noConfusion h
  | cons x r ih =>
    intro c h
    rw [beforeTriple] at h
    split at h
    · simp only [Option.some.injEq] at h
      exact h ▸ List.nil_prefix
    · cases hb : beforeTriple r with
      | none => rw [hb] at h; simp at h
      | some c' =>
        rw [hb] at h
        simp only [Option.map_some', Option.some.injEq] at h
        subst h
        exact List.cons_prefix_cons.mpr ⟨rfl, ih c' hb⟩

lemma beforeTriple_no_triple :
    ∀ (l c : List Char), beforeTriple l = some c → hasTriple c = false := by
  intro l
  induction l with
  | nil => intro c h; exact Option.noConfusion h
  | cons x r ih =>
    intro c h
    rw [beforeTriple] at h
    split at h
    · simp only [Option.some.injEq] at h
      subst h
      rfl
    · next hst =>
      cases hb : beforeTriple r with
      | none => rw [hb] at h; simp at h
      | some c' =>
        rw [hb] at h
        simp only [Option.map_some', Option.some.injEq] at h
        subst h
        rw [hasTriple_cons]
        simp only [Bool.or_eq_false_iff]
        refine ⟨?_, ih c' hb⟩
        match hc' : c' with
        | [] => rfl
        | [b] => rfl
        | b1 :: b2 :: rest =>
          by_contra habs
          simp only [Bool.not_eq_false, startsTriple, Bool.and_eq_true,
            beq_iff_eq] at habs
          obtain ⟨⟨hx, hb1⟩, hb2⟩ := habs
          obtain ⟨t, htr⟩ := beforeTriple_isPre r (b1 :: b2 :: rest) hb
          exact hst (by
            rw [← htr, hx, hb1, hb2]
            simp [startsTriple])

lemma beforeTriple_none (l : List Char) :
    hasTriple l = false → beforeTriple l = none := by
  induction l with
  | nil => intro _; rfl
  | cons c r ih =>
    intro h
    rw [hasTriple_cons] at h
    simp only [Bool.or_eq_false_iff] at h
    rw [beforeTriple, if_neg (by simp [h.1]), ih h.2]
    rfl

lemma hasTriple_drop (l : List Char) (k : Nat) :
    hasTriple l = false → hasTriple (l.drop k) = false := by
  induction l generalizing k with
  | nil => intro _; simp [hasTriple]
  | cons c r ih =>
    intro h
    rw [hasTriple_cons] at h
    simp only [Bool.or_eq_false_iff] at h
    cases k with
    | zero => rw [List.drop_zero, hasTriple_cons]; simp [h.1, h.2]
    | succ k' => rw [List.drop_succ_cons]; exact ih k' h.2

lemma searchOpen_some_no_triple (pat : List Char) :
    ∀ (l c : List Char), searchOpen pat l = some c → hasTriple c = false := by
  intro l
  induction l with
  | nil => intro c h; exact Option.noConfusion h
  | cons x r ih =>
    intro c h
    rw [searchOpen] at h
    split at h
    · cases hb : beforeTriple ((x :: r).drop pat.length) with
      | none => rw [hb] at h; exact ih c h
      | some content =>
        rw [hb] at h
        simp only [Option.some.injEq] at h
        exact h ▸ beforeTriple_no_triple _ content hb
    · exact ih c h

lemma searchOpen_none (pat l : List Char) :
    hasTriple l = false → searchOpen pat l = none := by
  induction l with
  | nil => intro _; rfl
  | cons x r ih =>
    intro h
    have hr : hasTriple r = false := by
      rw [hasTriple_cons] at h
      simp only [Bool.or_eq_false_iff] at h
      exact h.2
    rw [searchOpen]
    split
    · rw [beforeTriple_none _ (hasTriple_drop _ _ h), ih hr]
    · exact ih hr

lemma stripR_cons (c : Char) (t : List Char) :
    stripR (c :: t) =
      if stripR t = [] then (if isWs c then [] else [c])
      else c :: stripR t := by
  rw [stripR, show (c :: t).reverse = t.reverse ++ [c] by simp,
    List.dropWhile_append]
  split
  · next he =>
    have hnil : stripR t = [] := by
      rw [stripR, List.isEmpty_iff.mp he]
      rfl
    rw [if_pos hnil, List.dropWhile_cons]
    split <;> simp
  · next he =>
    have hne : stripR t ≠ [] := by
      rw [stripR]
      simpa [List.isEmpty_iff] using he
    rw [if_neg hne, List.reverse_append, stripR]
    simp

lemma stripL_stripR_comm (l : List Char) :
    stripL (stripR l) = stripR (stripL l) := by
  induction l with
  | nil => rfl
  | cons c t ih =>
    by_cases hc : isWs c
    · have hL : stripL (c :: t) = stripL t := by
        simp [stripL, List.dropWhile_cons, hc]
      rw [stripR_cons, hL]
      by_cases he : stripR t = []
      · rw [if_pos he, if_pos hc]
        have h0 : List.dropWhile isWs t.reverse = [] := by
          rw [stripR] at he
          exact List.reverse_eq_nil_iff.mp he
        have hall : ∀ x ∈ t, isWs x := fun x hx =>
          List.dropWhile_eq_nil_iff.mp h0 x (List.mem_reverse.mpr hx)
        have hLnil : stripL t = [] := List.dropWhile_eq_nil_iff.mpr hall
        rw [hLnil]
        rfl
      · rw [if_neg he]
        have hstep : stripL (c :: stripR t) = stripL (stripR t) := by
          simp [stripL, List.dropWhile_cons, hc]
        rw [hstep, ih]
    · have hL : stripL (c :: t) = c :: t := by
        simp [stripL, List.dropWhile_cons, hc]
      rw [stripR_cons, hL]
      by_cases he : stripR t = []
      · rw [if_pos he, if_neg hc, stripR_cons, if_pos he, if_neg hc]
        simp [stripL, List.dropWhile_cons, hc]
      · rw [if_neg he, stripR_cons, if_neg he]
        simp [stripL, List.dropWhile_cons, hc]

lemma stripL_idem (l : List Char) : stripL (stripL l) = stripL l :=
  List.dropWhile_idempotent isWs l

lemma stripR_idem (l : List Char) : stripR (stripR l) = stripR l := by
  rw [stripR, stripR, List.reverse_reverse, List.dropWhile_idempotent]

lemma stripWs_idem (l : List Char) : stripWs (stripWs l) = stripWs l := by
  rw [stripWs, stripWs, stripL_stripR_comm, stripR_idem, stripL_idem]

/-- A stripped, fence-free text is a fixed point of the cleanup. -/
lemma cleanChars_fixed (r : List Char) (hstrip : stripWs r = r)
    (hnt : hasTriple r = false) : cleanChars r = r := by
  rw [cleanChars]
  simp only [hstrip, searchOpen_none fenceLatex r hnt,
    searchOpen_none fenceTex r hnt, searchOpen_none fencePlain r hnt]

/-- The cleanup core is idempotent: whichever pattern fires, the extracted
group contains no triple backtick (the lazy group stops at the first
closing fence), so a second pass finds no fence and strips nothing new. -/
lemma cleanChars_idem (l : List Char) :
    cleanChars (cleanChars l) = cleanChars l := by
  have hfix : ∀ c : List Char, hasTriple c = false →
      cleanChars (stripWs c) = stripWs c := fun c hc =>
    cleanChars_fixed (stripWs c) (stripWs_idem c) (stripWs_no_triple c hc)
  cases h1 : searchOpen fenceLatex (stripWs l) with
  | some c =>
    have hval : cleanChars l = stripWs c := by rw [cleanChars, h1]
    rw [hval]
    exact hfix c (searchOpen_some_no_triple _ _ c h1)
  | none =>
    cases h2 : searchOpen fenceTex (stripWs l) with
    | some c =>
      have hval : cleanChars l = stripWs c := by rw [cleanChars, h1, h2]
      rw [hval]
      exact hfix c (searchOpen_some_no_triple _ _ c h2)
    | none =>
      cases h3 : searchOpen fencePlain (stripWs l) with
      | some c =>
        have hval : cleanChars l = stripWs c := by rw [cleanChars, h1, h2, h3]
        rw [hval]
        exact hfix c (searchOpen_some_no_triple _ _ c h3)
      | none =>
        have hval : cleanChars l = stripWs l := by rw [cleanChars, h1, h2, h3]
        rw [hval, cleanChars, stripWs_idem, h1, h2, h3]

/-- C9: the code-fence cleanup is idempotent — for every response text,
stripping twice yields the same inner text as stripping once, both for
`AdvancedPDFProcessor._clean_latex` and for the identical
`OutputValidator._clean_content`. -/
theorem C9_cleanup_idempotent (s : String) :
    cleanLatex (cleanLatex s) = cleanLatex s
    ∧ cleanContent (cleanContent s) = cleanContent s :=
  ⟨congrArg String.mk (cleanChars_idem s.data),
   congrArg String.mk (cleanChars_idem s.data)⟩

/-! ### Chunk coverage for valid configurations (C3) -/

lemma pySlice_length (pages : List (Nat × String)) (i e : Int)
    (h0 : 0 ≤ i) (h0e : 0 ≤ e) (hel : e ≤ (pages.length : Int)) :
    (pySlice pages i e).length = e.toNat - i.toNat := by
  unfold pySlice pyNorm
  rw [if_neg (by omega), if_neg (by omega)]
  simp only [List.length_take, List.length_drop]
  omega

lemma pySlice_getElem (pages : List (Nat × String)) (i e : Int)
    (h0 : 0 ≤ i) (h0e : 0 ≤ e) (hel : e ≤ (pages.length : Int))
    (k : Nat) (hk : k < e.toNat - i.toNat) :
    (pySlice pages i e)[k]? = pages[i.toNat + k]? := by
  unfold pySlice pyNorm
  rw [if_neg (by omega), if_neg (by omega)]
  rw [List.getElem?_take_of_lt (by omega), List.getElem?_drop]
  exact congrArg (pages[·]?) (by omega)

/-- Page numbers are monotone along a sorted page list. -/
lemma pages_mono (pages : List (Nat × String))
    (hsort : pages.Pairwise (fun a b => a.1 ≤ b.1))
    (a b : Nat) (hab : a ≤ b) (hb : b < pages.length) :
    (pages.get ⟨a, by omega⟩).1 ≤ (pages.get ⟨b, hb⟩).1 := by
  rcases Nat.eq_or_lt_of_le hab with rfl | hlt
  · exact Nat.le_refl _
  · exact List.pairwise_iff_getElem.mp hsort a b (by omega) hb hlt

/-- Unfolding of the `create_chunks` loop when the window is non-empty. -/
lemma createChunksLoop_step (chunkSize overlap : Int)
    (pages : List (Nat × String)) (n : Nat) (i : Int) (chunkId : Nat)
    (acc : List PDFChunk) (hi : i < (pages.length : Int))
    (f : Nat × String) (tail : List (Nat × String))
    (hsl : pySlice pages i (min (i + chunkSize) (pages.length : Int))
      = f :: tail) :
    createChunksLoop chunkSize overlap pages (n + 1) i chunkId acc
      = createChunksLoop chunkSize overlap pages n (i + (chunkSize - overlap))
          (chunkId + 1)
          (acc ++ [{ chunk_id := chunkId
                     start_page := f.1
                     end_page := ((f :: tail).getLast?.getD f).1
                     text := chunkText (f :: tail)
                     char_count := (chunkText (f :: tail)).length
                     title := "Sezione " ++ toString (chunkId + 1) ++ " (pp. "
                       ++ toString f.1 ++ "-"
                       ++ toString ((f :: tail).getLast?.getD f).1 ++ ")" }]) := by
  rw [createChunksLoop, if_pos hi]
  simp only [hsl]

/-- Unfolding of the `create_chunks` loop when the loop condition fails. -/
lemma createChunksLoop_stop (chunkSize overlap : Int)
    (pages : List (Nat × String)) (fuel : Nat) (i : Int) (chunkId : Nat)
    (acc : List PDFChunk) (hi : ¬ i < (pages.length : Int)) :
    createChunksLoop chunkSize overlap pages fuel i chunkId acc = .done acc := by
  rw [createChunksLoop.eq_def]
  simp [hi]

/-- Main loop invariant for valid configurations over sorted pages: with
fuel at least the number of remaining pages the loop terminates, appends
chunks with consecutive ids, each with `start_page ≤ end_page`, covering
every remaining page. -/
lemma createChunksLoop_spec (chunkSize overlap : Int)
    (pages : List (Nat × String))
    (hsort : pages.Pairwise (fun a b => a.1 ≤ b.1))
    (hcs : 0 < chunkSize) (hov : 0 ≤ overlap) (hlt : overlap < chunkSize) :
    ∀ (fuel : Nat) (i : Int) (chunkId : Nat) (acc : List PDFChunk),
      0 ≤ i → (pages.length : Int) - i ≤ fuel →
      ∃ rest : List PDFChunk,
        createChunksLoop chunkSize overlap pages fuel i chunkId acc
          = .done (acc ++ rest)
        ∧ rest.map (·.chunk_id) = List.range' chunkId rest.length
        ∧ (∀ c ∈ rest, c.start_page ≤ c.end_page)
        ∧ (∀ (j : Nat) (hj : j < pages.length), i ≤ (j : Int) →
            ∃ c ∈ rest, c.start_page ≤ (pages.get ⟨j, hj⟩).1
              ∧ (pages.get ⟨j, hj⟩).1 ≤ c.end_page) := by
  intro fuel
  induction fuel with
  | zero =>
    intro i chunkId acc h0i hfuel
    refine ⟨[], ?_, rfl, by simp, ?_⟩
    · rw [createChunksLoop_stop _ _ _ _ _ _ _ (by omega)]
      simp
    · intro j hj hij
      exact absurd hij (by omega)
  | succ n ih =>
    intro i chunkId acc h0i hfuel
    by_cases hi : i < (pages.length : Int)
    case neg =>
      refine ⟨[], ?_, rfl, by simp, ?_⟩
      · rw [createChunksLoop_stop _ _ _ _ _ _ _ hi]
        simp
      · intro j hj hij
        exact absurd hij (by omega)
    case pos =>
      have hiN : i.toNat < pages.length := by omega
      have h0e : (0 : Int) ≤ min (i + chunkSize) (pages.length : Int) := by omega
      have hie : i < min (i + chunkSize) (pages.length : Int) := by omega
      have hel : min (i + chunkSize) (pages.length : Int)
          ≤ (pages.length : Int) := by omega
      have hlen := pySlice_length pages i
        (min (i + chunkSize) (pages.length : Int)) h0i h0e hel
      have hslen_pos : 0 < (pySlice pages i
          (min (i + chunkSize) (pages.length : Int))).length := by omega
      cases hsl : pySlice pages i (min (i + chunkSize) (pages.length : Int)) with
      | nil =>
        rw [hsl] at hslen_pos
        exact absurd hslen_pos (by simp)
      | cons f tail =>
        have heN1 : (min (i + chunkSize) (pages.length : Int)).toNat - 1
            < pages.length := by omega
        have hget0 := pySlice_getElem pages i
          (min (i + chunkSize) (pages.length : Int)) h0i h0e hel 0 (by omega)
        rw [hsl] at hget0
        simp only [List.getElem?_cons_zero, Nat.add_zero] at hget0
        have hfval : f = pages.get ⟨i.toNat, hiN⟩ := by
          rw [List.getElem?_eq_getElem hiN] at hget0
          exact (Option.some.inj hget0.symm).symm
        have hlastq : (f :: tail).getLast?
            = pages[(min (i + chunkSize) (pages.length : Int)).toNat - 1]? := by
          rw [List.getLast?_eq_getElem?, ← hsl, hlen]
          rw [pySlice_getElem pages i
            (min (i + chunkSize) (pages.length : Int)) h0i h0e hel
            ((min (i + chunkSize) (pages.length : Int)).toNat - i.toNat - 1)
            (by omega)]
          exact congrArg (pages[·]?) (by omega)
        have hlastval : (f :: tail).getLast?.getD f
            = pages.get ⟨(min (i + chunkSize) (pages.length : Int)).toNat - 1,
                heN1⟩ := by
          rw [hlastq, List.getElem?_eq_getElem heN1]
          rfl
        obtain ⟨rest', hloop', hids', hse', hcov'⟩ :=
          ih (i + (chunkSize - overlap)) (chunkId + 1)
            (acc ++ [{ chunk_id := chunkId
                       start_page := f.1
                       end_page := ((f :: tail).getLast?.getD f).1
                       text := chunkText (f :: tail)
                       char_count := (chunkText (f :: tail)).length
                       title := "Sezione " ++ toString (chunkId + 1)
                         ++ " (pp. " ++ toString f.1 ++ "-"
                         ++ toString ((f :: tail).getLast?.getD f).1 ++ ")" }])
            (by omega) (by omega)
        refine ⟨{ chunk_id := chunkId
                  start_page := f.1
                  end_page := ((f :: tail).getLast?.getD f).1
                  text := chunkText (f :: tail)
                  char_count := (chunkText (f :: tail)).length
                  title := "Sezione " ++ toString (chunkId + 1)
                    ++ " (pp. " ++ toString f.1 ++ "-"
                    ++ toString ((f :: tail).getLast?.getD f).1 ++ ")" }
            :: rest', ?_, ?_, ?_, ?_⟩
        · rw [createChunksLoop_step chunkSize overlap pages n i chunkId acc hi
            f tail hsl, hloop']
          simp
        · simp only [List.map_cons, hids', List.length_cons]
          rfl
        · intro c hc
          rcases List.mem_cons.mp hc with rfl | hc'
          · show f.1 ≤ ((f :: tail).getLast?.getD f).1
            rw [hlastval, hfval]
            exact pages_mono pages hsort i.toNat _ (by omega) heN1
          · exact hse' c hc'
        · intro j hj hij
          by_cases hjrec : i + (chunkSize - overlap) ≤ (j : Int)
          · obtain ⟨c, hc, h1, h2⟩ := hcov' j hj hjrec
            exact ⟨c, List.mem_cons_of_mem _ hc, h1, h2⟩
          · have hj2 : (j : Int) < min (i + chunkSize) (pages.length : Int) := by
              omega
            refine ⟨_, List.mem_cons_self _ _, ?_, ?_⟩
            · show f.1 ≤ (pages.get ⟨j, hj⟩).1
              rw [hfval]
              exact pages_mono pages hsort i.toNat j (by omega) hj
            · show (pages.get ⟨j, hj⟩).1 ≤ ((f :: tail).getLast?.getD f).1
              rw [hlastval]
              exact pages_mono pages hsort j _ (by omega) heN1

/-- C3: for every ordered page sequence and every valid configuration
(`chunk_size > 0`, `0 ≤ overlap < chunk_size`), `create_chunks` terminates
(page-count fuel suffices) and the produced chunks have contiguous ids from
0 in output order, satisfy `start_page ≤ end_page`, and their
`[start_page, end_page]` ranges cover every input page at least once. -/
theorem C3_chunk_properties (pages : List (Nat × String))
    (chunkSize overlap : Int)
    (hsort : pages.Pairwise (fun a b => a.1 ≤ b.1))
    (hcs : 0 < chunkSize) (hov : 0 ≤ overlap) (hlt : overlap < chunkSize) :
    ∃ chunks : List PDFChunk,
      createChunks chunkSize overlap pages pages.length = .done chunks
      ∧ chunks.map (·.chunk_id) = List.range chunks.length
      ∧ (∀ c ∈ chunks, c.start_page ≤ c.end_page)
      ∧ (∀ (j : Nat) (hj : j < pages.length),
          ∃ c ∈ chunks, c.start_page ≤ (pages.get ⟨j, hj⟩).1
            ∧ (pages.get ⟨j, hj⟩).1 ≤ c.end_page) := by
  obtain ⟨rest, hloop, hids, hse, hcov⟩ :=
    createChunksLoop_spec chunkSize overlap pages hsort hcs hov hlt
      pages.length 0 0 [] (by omega) (by omega)
  refine ⟨rest, ?_, ?_, hse, ?_⟩
  · rw [createChunks, hloop]
    simp
  · rw [List.range_eq_range']
    exact hids
  · intro j hj
    exact hcov j hj (by omega)

/-- Witness for C3 at a concrete sorted three-page document with
`chunk_size = 2, overlap = 1`. -/
theorem C3_chunk_properties_witness :
    ([((1 : Nat), "a"), (2, "b"), (3, "c")].Pairwise
        (fun (a b : Nat × String) => a.1 ≤ b.1))
    ∧ ((0 : Int) < 2 ∧ (0 : Int) ≤ 1 ∧ (1 : Int) < 2)
    ∧ (∃ chunks : List PDFChunk,
        createChunks 2 1 [((1 : Nat), "a"), (2, "b"), (3, "c")]
            [((1 : Nat), "a"), (2, "b"), (3, "c")].length = .done chunks
        ∧ chunks.map (·.chunk_id) = List.range chunks.length
        ∧ (∀ c ∈ chunks, c.start_page ≤ c.end_page)
        ∧ (∀ (j : Nat) (hj : j < [((1 : Nat), "a"), (2, "b"), (3, "c")].length),
            ∃ c ∈ chunks,
              c.start_page ≤ ([((1 : Nat), "a"), (2, "b"), (3, "c")].get ⟨j, hj⟩).1
              ∧ ([((1 : Nat), "a"), (2, "b"), (3, "c")].get ⟨j, hj⟩).1
                  ≤ c.end_page)) :=
  ⟨by decide, ⟨by decide, by decide, by decide⟩,
   C3_chunk_properties [((1 : Nat), "a"), (2, "b"), (3, "c")] 2 1
     (by decide) (by decide) (by decide) (by decide)⟩

end PyTextSummer
